/-
Verification of the jukebox room/voting coordinator
(src/jukebox-backend/music_voting_server.ts) against its specification.

The server keeps all state in two JavaScript `Map`s (`rooms` and
`participantRooms`) plus per-room `Map`s and arrays.  JavaScript `Map`s
preserve insertion order, `set` on an existing key replaces the value in
place, and `delete` removes the entry; we embed them as association lists
(`List (String × α)`) with operations mirroring those semantics.
Effectful inputs of the handlers (generated uuids, generated room codes,
`Date.now()`) are passed in as explicit parameters.
-/
import Mathlib

namespace Jukebox

/-! ## Association lists: the embedding of JavaScript `Map` -/

namespace AList

/-- `Map.get(k)`: the value at the first (unique) matching key. -/
def get (l : List (String × α)) (k : String) : Option α :=
  (l.find? (fun p => p.1 == k)).map (fun p => p.2)

/-- `Map.has(k)`. -/
def hasKey (l : List (String × α)) (k : String) : Bool :=
  l.any (fun p => p.1 == k)

/-- `Map.set(k, v)`: replace in place when the key is present, else append
(JavaScript `Map.set` keeps the original insertion position on update). -/
def set (l : List (String × α)) (k : String) (v : α) : List (String × α) :=
  if hasKey l k then l.map (fun p => if p.1 == k then (k, v) else p)
  else l ++ [(k, v)]

/-- `Map.delete(k)`. -/
def del (l : List (String × α)) (k : String) : List (String × α) :=
  l.filter (fun p => p.1 != k)

/-- `Map.size`. -/
def size (l : List (String × α)) : Nat := l.length

end AList

/-! ## Data model (the `interface` declarations of the source) -/

structure Participant where
  id : String
  name : String
  avatar : Option String
  joinedAt : Nat
  deriving Repr, DecidableEq

structure Song where
  id : String
  title : String
  artist : String
  albumArt : Option String
  duration : Nat
  spotifyId : Option String
  addedBy : String
  addedAt : Nat
  deriving Repr, DecidableEq

/-- A vote; the source types the `vote` field as the string union
`up | down`, validated at the handler, so we embed it as `String`. -/
structure Vote where
  participantId : String
  songId : String
  vote : String
  timestamp : Nat
  deriving Repr, DecidableEq

structure Room where
  id : String
  name : String
  createdBy : String
  createdAt : Nat
  participants : List (String × Participant)
  queue : List Song
  currentSong : Option Song
  votes : List (String × List Vote)
  isActive : Bool
  deriving Repr, DecidableEq

/-- The two module-level `Map`s of the server. -/
structure ServerState where
  rooms : List (String × Room)
  participantRooms : List (String × String)
  deriving Repr, DecidableEq

/-! ## Utility functions of the source -/

/-- `calculateSongScore`: `votes.reduce((score, vote) =>
score + (vote.vote === up ? 1 : -1), 0)`. -/
def calculateSongScore (votes : List Vote) : Int :=
  votes.foldl (fun score vote => score + (if vote.vote == "up" then 1 else -1)) 0

/-- Score of a song under a votes map: `calculateSongScore(votesMap.get(a.id) || [])`. -/
def songScore (votesMap : List (String × List Vote)) (s : Song) : Int :=
  calculateSongScore ((AList.get votesMap s.id).getD [])

/-- The comparator of `sortQueueByVotes`: the JavaScript comparator
`scoreB - scoreA` orders `a` no later than `b` exactly when
`score(b) ≤ score(a)` (higher score first). -/
def songGE (votesMap : List (String × List Vote)) (a b : Song) : Prop :=
  songScore votesMap b ≤ songScore votesMap a

instance (m : List (String × List Vote)) : DecidableRel (songGE m) :=
  fun a b => Int.decLe _ _

/-- `sortQueueByVotes`: `[...queue].sort((a, b) => scoreB - scoreA)`.
JavaScript `Array.prototype.sort` is a stable sort (ES2019), which we
embed as insertion sort on the descending-score comparator. -/
def sortQueueByVotes (queue : List Song) (votesMap : List (String × List Vote)) :
    List Song :=
  queue.insertionSort (songGE votesMap)

/-! ## Route handlers

Each handler is a pure function from the server state (plus request fields
and the effectful inputs: generated ids and the current time) to the new
server state and a result.  The error kinds follow the specification's
taxonomy; in the source they appear as the handlers' early-return error
responses (400 for malformed input, 404 unknown room/participant,
403 non-member, 400 "Room is no longer active"). -/

inductive ApiError
  | validation
  | notFound
  | forbidden
  | inactiveRoom
  deriving Repr, DecidableEq

/-- Fields of the `song` object in the body of `POST /api/rooms/:roomId/queue`. -/
structure SongFields where
  title : String
  artist : String
  albumArt : Option String
  duration : Nat
  spotifyId : Option String
  deriving Repr, DecidableEq

/-- `POST /api/rooms` — create a room.  `roomId` is the value returned by
`generateRoomCode()`, `participantId` the generated uuid, `now` is
`Date.now()`.  The JavaScript falsiness test `!name` is the empty-string
test here. -/
def createRoom (s : ServerState) (name creatorName : String)
    (creatorAvatar : Option String) (roomId participantId : String) (now : Nat) :
    ServerState × Except ApiError String :=
  if name == "" || creatorName == "" then (s, .error .validation)
  else
    let creator : Participant :=
      { id := participantId, name := creatorName, avatar := creatorAvatar, joinedAt := now }
    let room : Room :=
      { id := roomId, name := name, createdBy := participantId, createdAt := now,
        participants := [(participantId, creator)], queue := [], currentSong := none,
        votes := [], isActive := true }
    ({ rooms := AList.set s.rooms roomId room,
       participantRooms := AList.set s.participantRooms participantId roomId },
     .ok roomId)

/-- `POST /api/rooms/:roomId/join`. -/
def joinRoom (s : ServerState) (roomId name : String) (avatar : Option String)
    (participantId : String) (now : Nat) : ServerState × Except ApiError String :=
  if name == "" then (s, .error .validation)
  else
    match AList.get s.rooms roomId with
    | none => (s, .error .notFound)
    | some room =>
      if !room.isActive then (s, .error .inactiveRoom)
      else
        let participant : Participant :=
          { id := participantId, name := name, avatar := avatar, joinedAt := now }
        let room' :=
          { room with participants := AList.set room.participants participantId participant }
        ({ rooms := AList.set s.rooms roomId room',
           participantRooms := AList.set s.participantRooms participantId roomId },
         .ok participantId)

/-- `POST /api/rooms/:roomId/queue` — add a song.  `songId` is the generated
uuid.  Note: the handler checks only room existence and membership. -/
def addSong (s : ServerState) (roomId participantId : String) (song : SongFields)
    (songId : String) (now : Nat) : ServerState × Except ApiError Song :=
  match AList.get s.rooms roomId with
  | none => (s, .error .notFound)
  | some room =>
    if !AList.hasKey room.participants participantId then (s, .error .forbidden)
    else
      let newSong : Song :=
        { id := songId, title := song.title, artist := song.artist,
          albumArt := song.albumArt, duration := song.duration,
          spotifyId := song.spotifyId, addedBy := participantId, addedAt := now }
      let room' :=
        { room with queue := room.queue ++ [newSong],
                    votes := AList.set room.votes songId [] }
      ({ s with rooms := AList.set s.rooms roomId room' }, .ok newSong)

/-- The splice step of the vote handler: `findIndex` of the participant's
existing vote followed by `splice(i, 1)` when found. -/
def removeExistingVote (songVotes : List Vote) (participantId : String) : List Vote :=
  match songVotes.findIdx? (fun v => v.participantId == participantId) with
  | some i => songVotes.eraseIdx i
  | none => songVotes

/-- `POST /api/rooms/:roomId/vote`.  The direction check
`['up','down'].includes(vote)` runs before the room lookup.  The song id is
taken from the request body and is never checked against the queue. -/
def castVote (s : ServerState) (roomId participantId songId vote : String)
    (now : Nat) : ServerState × Except ApiError Unit :=
  if !(vote == "up" || vote == "down") then (s, .error .validation)
  else
    match AList.get s.rooms roomId with
    | none => (s, .error .notFound)
    | some room =>
      if !AList.hasKey room.participants participantId then (s, .error .forbidden)
      else
        let songVotes := (AList.get room.votes songId).getD []
        let newVote : Vote :=
          { participantId := participantId, songId := songId, vote := vote, timestamp := now }
        let songVotes' := removeExistingVote songVotes participantId ++ [newVote]
        let room' := { room with votes := AList.set room.votes songId songVotes' }
        ({ s with rooms := AList.set s.rooms roomId room' }, .ok ())

/-- `POST /api/rooms/:roomId/leave`.  The vote purge is the source's
`votes.forEach` that re-`set`s each song's list filtered of the leaver's
votes; the deactivation test reads the participant count after the
deletion. -/
def leaveRoom (s : ServerState) (roomId participantId : String) :
    ServerState × Except ApiError Unit :=
  match AList.get s.rooms roomId with
  | none => (s, .error .notFound)
  | some room =>
    match AList.get room.participants participantId with
    | none => (s, .error .notFound)
    | some _ =>
      let participants' := AList.del room.participants participantId
      let votes' := room.votes.map
        (fun p => (p.1, p.2.filter (fun v => v.participantId != participantId)))
      let isActive' :=
        if AList.size participants' == 0 || participantId == room.createdBy then false
        else room.isActive
      let room' :=
        { room with participants := participants', votes := votes', isActive := isActive' }
      ({ rooms := AList.set s.rooms roomId room',
         participantRooms := AList.del s.participantRooms participantId },
       .ok ())

/-- `ROOM_TIMEOUT = 24 * 60 * 60 * 1000` milliseconds. -/
def ROOM_TIMEOUT : Nat := 24 * 60 * 60 * 1000

/-- Condition of the cleanup sweep:
`!room.isActive || (now - room.createdAt > ROOM_TIMEOUT)`.  Timestamps are
naturals; when `now < createdAt` the JavaScript difference is negative and
the truncated difference is zero, and the comparison fails either way. -/
def roomExpired (room : Room) (now : Nat) : Bool :=
  !room.isActive || decide (ROOM_TIMEOUT < now - room.createdAt)

/-- The body of the sweep's `rooms.forEach`: for a room meeting
`roomExpired`, delete each of its participants from `participantRooms` and
delete the room; otherwise leave the state alone. -/
def sweepStep (now : Nat) (st : ServerState) (p : String × Room) : ServerState :=
  if roomExpired p.2 now then
    { rooms := AList.del st.rooms p.1,
      participantRooms :=
        p.2.participants.foldl (fun pr q => AList.del pr q.1) st.participantRooms }
  else st

/-- The `setInterval` cleanup pass over all stored rooms. -/
def cleanupSweep (s : ServerState) (now : Nat) : ServerState :=
  s.rooms.foldl (sweepStep now) s

/-! ## The operations as a single step relation -/

/-- An inbound mutation request together with its effectful inputs. -/
inductive Op
  | create (name creatorName : String) (creatorAvatar : Option String)
      (roomId participantId : String) (now : Nat)
  | join (roomId name : String) (avatar : Option String)
      (participantId : String) (now : Nat)
  | addSong (roomId participantId : String) (song : SongFields)
      (songId : String) (now : Nat)
  | castVote (roomId participantId songId vote : String) (now : Nat)
  | leave (roomId participantId : String)
  deriving Repr

/-- The error, if any, of a handler result. -/
def errOf : Except ApiError α → Option ApiError
  | .error e => some e
  | .ok _ => none

/-- Dispatch an operation to its handler, keeping the new state and the
error (if any). -/
def runOp (s : ServerState) : Op → ServerState × Option ApiError
  | .create n cn ca rid pid now =>
    let r := createRoom s n cn ca rid pid now; (r.1, errOf r.2)
  | .join rid n av pid now =>
    let r := joinRoom s rid n av pid now; (r.1, errOf r.2)
  | .addSong rid pid song sid now =>
    let r := addSong s rid pid song sid now; (r.1, errOf r.2)
  | .castVote rid pid sid v now =>
    let r := castVote s rid pid sid v now; (r.1, errOf r.2)
  | .leave rid pid =>
    let r := leaveRoom s rid pid; (r.1, errOf r.2)

/-- Whether an operation is a create request (the only operation that
stores a room under a possibly colliding fresh code rather than acting on
an existing room). -/
def Op.isCreate : Op → Bool
  | .create .. => true
  | _ => false

/-! ## Sample objects used by witnesses and counterexamples -/

/-- A sample participant. -/
def aliceP : Participant :=
  { id := "alice", name := "Alice", avatar := none, joinedAt := 0 }

/-- Another sample participant. -/
def bobP : Participant :=
  { id := "bob", name := "Bob", avatar := none, joinedAt := 0 }

/-- A sample active room whose only member is `alice`. -/
def sampleRoom : Room :=
  { id := "R1", name := "Party", createdBy := "alice", createdAt := 0,
    participants := [("alice", aliceP)], queue := [], currentSong := none,
    votes := [], isActive := true }

/-- A sample server state holding `sampleRoom`. -/
def sampleState : ServerState :=
  { rooms := [("R1", sampleRoom)], participantRooms := [("alice", "R1")] }

/-- A room created by `alice` in which `alice` has one stored vote and
`bob` is also a member. -/
def sampleRoomVotes : Room :=
  { id := "R2", name := "Party", createdBy := "alice", createdAt := 0,
    participants := [("alice", aliceP), ("bob", bobP)], queue := [],
    currentSong := none,
    votes := [("s1", [{ participantId := "alice", songId := "s1",
                        vote := "up", timestamp := 1 }])],
    isActive := true }

/-- A sample server state holding `sampleRoomVotes`. -/
def sampleStateVotes : ServerState :=
  { rooms := [("R2", sampleRoomVotes)],
    participantRooms := [("alice", "R2"), ("bob", "R2")] }

/-- A deactivated room that still has `bob` as a member (as after its
creator left). -/
def inactiveSampleRoom : Room :=
  { id := "R9", name := "Party", createdBy := "alice", createdAt := 0,
    participants := [("bob", bobP)], queue := [], currentSong := none,
    votes := [], isActive := false }

/-- A sample server state holding `inactiveSampleRoom`. -/
def inactiveSampleState : ServerState :=
  { rooms := [("R9", inactiveSampleRoom)], participantRooms := [("bob", "R9")] }

/-- The state reached by create (Alice, code R1), join (Bob), leave
(Alice): the room is deactivated but Bob is still a member. -/
def leftCreatorState : ServerState :=
  (leaveRoom
    (joinRoom
      (createRoom { rooms := [], participantRooms := [] }
        "Party" "Alice" none "R1" "alice" 0).1
      "R1" "Bob" none "bob" 1).1
    "R1" "alice").1

/-! ## Lemmas about the `Map` embedding -/

namespace AList

theorem get_nil (k : String) : get ([] : List (String × α)) k = none := rfl

theorem get_cons (p : String × α) (l : List (String × α)) (k : String) :
    get (p :: l) k = if p.1 == k then some p.2 else get l k := by
  by_cases h : p.1 == k <;> simp [get, List.find?_cons, h]

theorem hasKey_false_get (l : List (String × α)) (k : String)
    (h : hasKey l k = false) : get l k = none := by
  unfold hasKey at h
  unfold get
  simp only [Option.map_eq_none']
  rw [List.find?_eq_none]
  intro p hp hpk
  have hany : l.any (fun p => p.1 == k) = true := List.any_eq_true.mpr ⟨p, hp, hpk⟩
  rw [h] at hany
  exact Bool.false_ne_true hany

theorem get_append_right (l₁ l₂ : List (String × α)) (k : String)
    (h : get l₁ k = none) : get (l₁ ++ l₂) k = get l₂ k := by
  unfold get at h ⊢
  rw [List.find?_append]
  simp only [Option.map_eq_none'] at h
  simp [h]

theorem get_map_replace_self (l : List (String × α)) (k : String) (v : α)
    (h : hasKey l k = true) :
    get (l.map (fun p => if p.1 == k then (k, v) else p)) k = some v := by
  unfold hasKey at h
  induction l with
  | nil => simp at h
  | cons q l ih =>
    simp only [List.any_cons, Bool.or_eq_true] at h
    by_cases hq : q.1 = k
    · simp [get_cons, hq]
    · rcases h with h | h
      · exact absurd (by simpa using h) hq
      · simpa [get_cons, hq] using ih h

theorem get_map_replace_ne (l : List (String × α)) (k k' : String) (v : α)
    (h : k ≠ k') :
    get (l.map (fun p => if p.1 == k then (k, v) else p)) k' = get l k' := by
  induction l with
  | nil => rfl
  | cons q l ih =>
    by_cases hq : q.1 = k
    · simpa [get_cons, hq, h, Ne.symm h] using ih
    · by_cases hq' : q.1 = k'
      · simp [get_cons, hq, hq', Ne.symm h]
      · simpa [get_cons, hq, hq'] using ih

theorem get_set_self (l : List (String × α)) (k : String) (v : α) :
    get (set l k v) k = some v := by
  unfold set
  split
  · exact get_map_replace_self l k v (by assumption)
  · rename_i h
    rw [get_append_right l [(k, v)] k (hasKey_false_get l k (by simpa using h))]
    simp [get_cons]

theorem get_set_ne (l : List (String × α)) (k k' : String) (v : α) (h : k ≠ k') :
    get (set l k v) k' = get l k' := by
  unfold set
  split
  · exact get_map_replace_ne l k k' v h
  · unfold get
    rw [List.find?_append]
    cases hfl : l.find? (fun p => p.1 == k') with
    | some p => simp [hfl]
    | none => simp [hfl, h]

theorem get_del_self (l : List (String × α)) (k : String) :
    get (del l k) k = none := by
  unfold get del
  simp only [Option.map_eq_none']
  rw [List.find?_eq_none]
  intro p hp
  have hne := List.of_mem_filter hp
  simp only [bne_iff_ne, ne_eq] at hne
  simpa using hne

theorem get_del_ne (l : List (String × α)) (k k' : String) (h : k ≠ k') :
    get (del l k) k' = get l k' := by
  induction l with
  | nil => rfl
  | cons q l ih =>
    by_cases hq : q.1 = k
    · have h1 : (q.1 != k) = false := by simp [hq]
      have h2 : (q.1 == k') = false := by simp [hq]; exact h
      have hdel : del (q :: l) k = del l k := by
        unfold del
        rw [List.filter_cons, if_neg (by simp [h1])]
      rw [hdel, get_cons, h2, ih]
      simp
    · have h1 : (q.1 != k) = true := by simp [hq]
      have hdel : del (q :: l) k = q :: del l k := by
        unfold del
        rw [List.filter_cons, if_pos h1]
      rw [hdel, get_cons, get_cons]
      by_cases hq' : q.1 = k'
      · simp [hq']
      · simp [hq', ih]

theorem get_none_of_sublist {k : String} {l₁ l₂ : List (String × α)}
    (h : l₁.Sublist l₂) (hk : get l₂ k = none) : get l₁ k = none := by
  unfold get at hk ⊢
  simp only [Option.map_eq_none'] at hk ⊢
  rw [List.find?_eq_none] at hk ⊢
  exact fun p hp => hk p (h.subset hp)

theorem get_mapValues (l : List (String × α)) (f : α → β) (k : String) :
    get (l.map (fun p => (p.1, f p.2))) k = (get l k).map f := by
  induction l with
  | nil => rfl
  | cons q l ih =>
    by_cases hq : q.1 == k <;> simp [get_cons, hq, ih]

end AList

/-! ## Score: claim C3 -/

theorem calculateSongScore_foldl (l : List Vote) (n : Int) :
    l.foldl (fun score vote => score + (if vote.vote == "up" then 1 else -1)) n
      = n + (l.countP (fun v => v.vote == "up") : Int)
          - (l.countP (fun v => !(v.vote == "up")) : Int) := by
  induction l generalizing n with
  | nil => simp
  | cons v l ih =>
    by_cases hv : (v.vote == "up") = true <;>
      simp only [List.foldl_cons, List.countP_cons, hv, ih] <;>
      simp [hv] <;> ring

/-- C3: for every list of votes on a song, the computed score is the number
of up votes minus the number of down votes, and an empty vote list scores
zero.  The hypothesis records that every stored direction is `up` or
`down`, which the vote handler's direction validation guarantees. -/
theorem calculateSongScore_spec (l : List Vote)
    (h : ∀ v ∈ l, v.vote = "up" ∨ v.vote = "down") :
    calculateSongScore l =
      (l.countP (fun v => v.vote == "up") : Int)
        - (l.countP (fun v => v.vote == "down") : Int)
    ∧ calculateSongScore [] = 0 := by
  constructor
  · unfold calculateSongScore
    rw [calculateSongScore_foldl]
    have hc : l.countP (fun v => !(v.vote == "up"))
        = l.countP (fun v => v.vote == "down") := by
      apply List.countP_congr
      intro v hv
      rcases h v hv with h1 | h1 <;> simp [h1]
    rw [hc]
    ring
  · rfl

/-- Witness for C3 at a concrete two-vote list. -/
theorem calculateSongScore_spec_witness :
    calculateSongScore
        [{ participantId := "a", songId := "s", vote := "up", timestamp := 1 },
         { participantId := "b", songId := "s", vote := "down", timestamp := 2 },
         { participantId := "c", songId := "s", vote := "up", timestamp := 3 }] = 1 := by
  have h := calculateSongScore_spec
    [{ participantId := "a", songId := "s", vote := "up", timestamp := 1 },
     { participantId := "b", songId := "s", vote := "down", timestamp := 2 },
     { participantId := "c", songId := "s", vote := "up", timestamp := 3 }]
    (by intro v hv; fin_cases hv <;> simp)
  rw [h.1]
  decide

/-! ## Queue ranking: claim C1 -/

theorem filter_insertionSort_of_pairwise {α : Type} (r : α → α → Prop)
    [DecidableRel r] (l : List α) (p : α → Bool)
    (hp : (l.filter p).Pairwise r) :
    (l.insertionSort r).filter p = l.filter p := by
  have hfil : (l.filter p).filter p = l.filter p :=
    List.filter_eq_self.mpr (fun a ha => List.of_mem_filter ha)
  have hsub : (l.filter p).Sublist (l.insertionSort r) :=
    List.sublist_insertionSort hp (List.filter_sublist l)
  have hsub2 : (l.filter p).Sublist ((l.insertionSort r).filter p) := by
    have hf := hsub.filter p
    rwa [hfil] at hf
  have hlen : ((l.insertionSort r).filter p).length = (l.filter p).length :=
    ((List.perm_insertionSort r l).filter p).length_eq
  exact (hsub2.eq_of_length hlen.symm).symm

/-- C1: `sortQueueByVotes` returns a permutation of the queue, sorted by
descending score, and for each score value the sublist of songs with that
score is exactly the corresponding sublist of the input queue — so songs
with equal scores keep their relative queue order (stable sort with
insertion-order tie-break). -/
theorem sortQueueByVotes_spec (queue : List Song)
    (votesMap : List (String × List Vote)) :
    (sortQueueByVotes queue votesMap).Perm queue
    ∧ List.Sorted (songGE votesMap) (sortQueueByVotes queue votesMap)
    ∧ ∀ k : Int,
        (sortQueueByVotes queue votesMap).filter
            (fun s => songScore votesMap s == k)
          = queue.filter (fun s => songScore votesMap s == k) := by
  refine ⟨List.perm_insertionSort _ _, ?_, ?_⟩
  · haveI : IsTotal Song (songGE votesMap) := ⟨fun _ _ => le_total _ _⟩
    haveI : IsTrans Song (songGE votesMap) :=
      ⟨fun _ _ _ hab hbc => le_trans hbc hab⟩
    exact List.sorted_insertionSort _ _
  · intro k
    apply filter_insertionSort_of_pairwise
    apply List.pairwise_of_forall_mem_list
    intro a ha b hb
    have hak := List.of_mem_filter ha
    have hbk := List.of_mem_filter hb
    simp only [beq_iff_eq] at hak hbk
    unfold songGE
    rw [hak, hbk]

/-! ## Vote replacement: claim C2 -/

theorem removeExistingVote_eq_eraseP (l : List Vote) (pid : String) :
    removeExistingVote l pid = l.eraseP (fun v => v.participantId == pid) := by
  induction l with
  | nil => rfl
  | cons v l ih =>
    unfold removeExistingVote at ih ⊢
    rw [List.eraseP_cons, List.findIdx?_cons]
    by_cases hv : (v.participantId == pid) = true
    · rw [if_pos hv, hv]
      simp [List.eraseIdx_cons_zero]
    · rw [if_neg hv]
      have hv' : (v.participantId == pid) = false := by simpa using hv
      rw [List.findIdx?_succ, hv']
      cases hfi : l.findIdx? (fun w => w.participantId == pid) with
      | none =>
        rw [hfi] at ih
        simp only [hfi, Option.map_none', cond_false]
        rw [← ih]
      | some i =>
        rw [hfi] at ih
        simp only [hfi, Option.map_some', cond_false, List.eraseIdx_cons_succ]
        rw [← ih]

theorem mem_removeExistingVote_ne (l : List Vote) (pid : String)
    (h : l.Pairwise (fun v w => v.participantId ≠ w.participantId)) :
    ∀ v ∈ removeExistingVote l pid, v.participantId ≠ pid := by
  rw [removeExistingVote_eq_eraseP]
  induction l with
  | nil => simp
  | cons a l ih =>
    rw [List.pairwise_cons] at h
    rw [List.eraseP_cons]
    by_cases ha : (a.participantId == pid) = true
    · rw [ha, cond_true]
      intro v hv hvp
      have hne := h.1 v hv
      simp only [beq_iff_eq] at ha
      exact hne (ha.trans hvp.symm)
    · have ha' : (a.participantId == pid) = false := by simpa using ha
      rw [ha', cond_false]
      intro v hv
      rcases List.mem_cons.mp hv with rfl | hv'
      · simpa using ha
      · exact ih h.2 v hv'

theorem pairwise_removeExistingVote (l : List Vote) (pid : String)
    (h : l.Pairwise (fun v w => v.participantId ≠ w.participantId)) :
    (removeExistingVote l pid).Pairwise
      (fun v w => v.participantId ≠ w.participantId) := by
  rw [removeExistingVote_eq_eraseP]
  exact List.Pairwise.sublist (List.eraseP_sublist l) h

/-- The per-room invariant of the Vote Ledger: within each song's stored
vote list, all participant ids are distinct — at most one vote per
(participant id, song id) pair. -/
def VotesUnique (room : Room) : Prop :=
  ∀ sid l, AList.get room.votes sid = some l →
    l.Pairwise (fun v w => v.participantId ≠ w.participantId)

/-- C2: given a stored room, a member, and a valid direction, `castVote`
succeeds (in particular it does not error when the participant has no
prior vote on the song), it preserves the at-most-one-vote-per-pair
invariant, and afterwards the one stored vote by that participant on that
song carries the direction and timestamp of this latest call. -/
theorem castVote_last_write_wins (s : ServerState)
    (roomId pid sid dir : String) (now : Nat) (room : Room)
    (hroom : AList.get s.rooms roomId = some room)
    (hmem : AList.hasKey room.participants pid = true)
    (hdir : dir = "up" ∨ dir = "down")
    (hinv : VotesUnique room) :
    (castVote s roomId pid sid dir now).2 = .ok ()
    ∧ ∃ room',
        AList.get (castVote s roomId pid sid dir now).1.rooms roomId = some room'
        ∧ VotesUnique room'
        ∧ ∃ l, AList.get room'.votes sid = some l
            ∧ l.filter (fun v => v.participantId == pid)
                = [{ participantId := pid, songId := sid,
                     vote := dir, timestamp := now }] := by
  have hdir' : (dir == "up" || dir == "down") = true := by
    rcases hdir with h | h <;> simp [h]
  have hbase : ((AList.get room.votes sid).getD []).Pairwise
      (fun v w => v.participantId ≠ w.participantId) := by
    cases hg : AList.get room.votes sid with
    | none => simp
    | some l₀ => simpa using hinv sid l₀ hg
  have hstep : castVote s roomId pid sid dir now =
      ({ s with rooms := AList.set s.rooms roomId ({ room with
            votes := AList.set room.votes sid
              (removeExistingVote ((AList.get room.votes sid).getD []) pid
                ++ [{ participantId := pid, songId := sid,
                      vote := dir, timestamp := now }]) }) },
       .ok ()) := by
    unfold castVote
    rw [hdir', hroom]
    simp [hmem]
  rw [hstep]
  refine ⟨rfl, ?_⟩
  refine ⟨_, AList.get_set_self _ _ _, ?_, ?_⟩
  · intro sid' l' hl'
    by_cases hs : sid = sid'
    · subst hs
      rw [AList.get_set_self] at hl'
      cases hl'
      rw [List.pairwise_append]
      refine ⟨pairwise_removeExistingVote _ _ hbase, List.pairwise_singleton _ _, ?_⟩
      intro a ha b hb
      rw [List.mem_singleton] at hb
      subst hb
      exact mem_removeExistingVote_ne _ _ hbase a ha
    · rw [AList.get_set_ne _ _ _ _ hs] at hl'
      exact hinv sid' l' hl'
  · refine ⟨_, AList.get_set_self _ _ _, ?_⟩
    rw [List.filter_append]
    have hrem : (removeExistingVote ((AList.get room.votes sid).getD []) pid).filter
        (fun v => v.participantId == pid) = [] := by
      rw [List.filter_eq_nil_iff]
      intro a ha
      simpa using mem_removeExistingVote_ne _ _ hbase a ha
    rw [hrem]
    simp

/-- Witness for C2: casting a first vote in `sampleState` succeeds and
stores exactly one vote by `alice` on `s1`, carrying this call's data. -/
theorem castVote_last_write_wins_witness :
    (castVote sampleState "R1" "alice" "s1" "down" 5).2 = .ok ()
    ∧ ∃ room',
        AList.get (castVote sampleState "R1" "alice" "s1" "down" 5).1.rooms "R1"
            = some room'
        ∧ VotesUnique room'
        ∧ ∃ l, AList.get room'.votes "s1" = some l
            ∧ l.filter (fun v => v.participantId == "alice")
                = [{ participantId := "alice", songId := "s1",
                     vote := "down", timestamp := 5 }] :=
  castVote_last_write_wins sampleState "R1" "alice" "s1" "down" 5 sampleRoom
    (by rfl) (by rfl) (Or.inr rfl)
    (by intro sid l h; simp [sampleRoom, AList.get] at h)

/-! ## Leaving a room: claims C8 and C4 -/

theorem leaveRoom_eq (s : ServerState) (roomId pid : String) (room : Room)
    (part : Participant)
    (hroom : AList.get s.rooms roomId = some room)
    (hpart : AList.get room.participants pid = some part) :
    leaveRoom s roomId pid =
      ({ rooms := AList.set s.rooms roomId ({ room with
            participants := AList.del room.participants pid,
            votes := room.votes.map
              (fun p => (p.1, p.2.filter (fun v => v.participantId != pid))),
            isActive :=
              if AList.size (AList.del room.participants pid) == 0
                  || pid == room.createdBy then false
              else room.isActive }),
         participantRooms := AList.del s.participantRooms pid },
       .ok ()) := by
  unfold leaveRoom
  rw [hroom]
  simp [hpart]

theorem get_votes_map_filter (votes : List (String × List Vote))
    (g : Vote → Bool) (k : String) :
    AList.get (votes.map (fun p => (p.1, p.2.filter g))) k
      = (AList.get votes k).map (fun vs => vs.filter g) :=
  AList.get_mapValues votes (fun vs => vs.filter g) k

/-- C8: after a successful leave, no vote authored by the departed
participant remains in any song's stored vote list of that room. -/
theorem leaveRoom_purges_votes (s : ServerState) (roomId pid : String)
    (room : Room) (part : Participant)
    (hroom : AList.get s.rooms roomId = some room)
    (hpart : AList.get room.participants pid = some part) :
    (leaveRoom s roomId pid).2 = .ok ()
    ∧ ∃ room', AList.get (leaveRoom s roomId pid).1.rooms roomId = some room'
        ∧ ∀ sid l, AList.get room'.votes sid = some l →
            ∀ v ∈ l, v.participantId ≠ pid := by
  rw [leaveRoom_eq s roomId pid room part hroom hpart]
  refine ⟨rfl, _, AList.get_set_self _ _ _, ?_⟩
  intro sid l hl
  rw [get_votes_map_filter] at hl
  cases hg : AList.get room.votes sid with
  | none => rw [hg] at hl; cases hl
  | some l₀ =>
    rw [hg] at hl
    simp only [Option.map_some'] at hl
    cases hl
    intro v hv
    have hvp := List.of_mem_filter hv
    simpa using hvp

/-- Witness for C8: after `alice` leaves `sampleStateVotes`, her stored
vote on `s1` is gone. -/
theorem leaveRoom_purges_votes_witness :
    (leaveRoom sampleStateVotes "R2" "alice").2 = .ok ()
    ∧ ∃ room',
        AList.get (leaveRoom sampleStateVotes "R2" "alice").1.rooms "R2"
            = some room'
        ∧ ∀ sid l, AList.get room'.votes sid = some l →
            ∀ v ∈ l, v.participantId ≠ "alice" :=
  leaveRoom_purges_votes sampleStateVotes "R2" "alice" sampleRoomVotes aliceP
    (by rfl) (by rfl)

/-! ## The cleanup sweep: claim C9 -/

theorem sweep_rooms_foldl (l : List (String × Room)) (st : ServerState)
    (now : Nat) :
    (l.foldl (sweepStep now) st).rooms
      = l.foldl
          (fun acc p => if roomExpired p.2 now then AList.del acc p.1 else acc)
          st.rooms := by
  induction l generalizing st with
  | nil => rfl
  | cons p l ih =>
    simp only [List.foldl_cons]
    by_cases hp : roomExpired p.2 now = true <;> simp [sweepStep, hp, ih]

theorem foldl_del_eq_filter (l : List (String × Room)) (now : Nat)
    (acc : List (String × Room)) :
    l.foldl (fun acc p => if roomExpired p.2 now then AList.del acc p.1 else acc)
        acc
      = acc.filter
          (fun q => !(l.any (fun p => roomExpired p.2 now && p.1 == q.1))) := by
  induction l generalizing acc with
  | nil => simp
  | cons p l ih =>
    simp only [List.foldl_cons, List.any_cons]
    by_cases hp : roomExpired p.2 now = true
    · rw [if_pos hp, ih]
      unfold AList.del
      rw [List.filter_filter]
      apply List.filter_congr
      intro q hq
      by_cases hqp : q.1 = p.1
      · simp [hqp, hp, Bool.and_comm]
      · have h1 : (q.1 != p.1) = true := by simp [hqp]
        have h2 : (p.1 == q.1) = false := by simpa using Ne.symm hqp
        rw [h1, h2]
        simp [Bool.and_comm]
    · have hp' : roomExpired p.2 now = false := by simpa using hp
      rw [if_neg hp, ih]
      apply List.filter_congr
      intro q hq
      simp [hp']

theorem eq_of_mem_of_nodup_keys {α : Type} {l : List (String × α)}
    (hnd : (l.map Prod.fst).Nodup) {p q : String × α}
    (hp : p ∈ l) (hq : q ∈ l) (hk : p.1 = q.1) : p = q := by
  induction l with
  | nil => cases hp
  | cons a l ih =>
    rw [List.map_cons, List.nodup_cons] at hnd
    rcases List.mem_cons.mp hp with rfl | hp' <;>
      rcases List.mem_cons.mp hq with rfl | hq'
    · rfl
    · exact absurd (hk ▸ List.mem_map_of_mem Prod.fst hq') hnd.1
    · exact absurd (hk ▸ List.mem_map_of_mem Prod.fst hp') hnd.1
    · exact ih hnd.2 hp' hq'

theorem any_key_eq (l : List (String × Room)) (now : Nat)
    (hnd : (l.map Prod.fst).Nodup) (q : String × Room) (hq : q ∈ l) :
    (l.any (fun p => roomExpired p.2 now && p.1 == q.1))
      = roomExpired q.2 now := by
  by_cases hqe : roomExpired q.2 now = true
  · rw [hqe]
    exact List.any_eq_true.mpr ⟨q, hq, by simp [hqe]⟩
  · have hqe' : roomExpired q.2 now = false := by simpa using hqe
    rw [hqe']
    rw [List.any_eq_false]
    intro p hp
    by_cases hpq : p.1 = q.1
    · have hpqeq : p = q := eq_of_mem_of_nodup_keys hnd hp hq hpq
      subst hpqeq
      simp [hqe']
    · simp [hpq]

theorem get_filter_not_expired (l : List (String × Room)) (now : Nat)
    (hnd : (l.map Prod.fst).Nodup) (k : String) (room : Room) :
    AList.get (l.filter (fun q => !roomExpired q.2 now)) k = some room
      ↔ AList.get l k = some room ∧ roomExpired room now = false := by
  induction l with
  | nil => simp [AList.get]
  | cons p l ih =>
    rw [List.map_cons, List.nodup_cons] at hnd
    rw [List.filter_cons]
    by_cases hpk : p.1 = k
    · have hnone : AList.get l k = none := by
        unfold AList.get
        simp only [Option.map_eq_none']
        rw [List.find?_eq_none]
        intro e he hek
        exact hnd.1 (by
          rw [beq_iff_eq] at hek
          exact (hpk ▸ hek ▸ List.mem_map_of_mem Prod.fst he : p.1 ∈ l.map Prod.fst))
      by_cases hpe : roomExpired p.2 now = true
      · rw [if_neg (by simp [hpe])]
        have hfn : AList.get (l.filter (fun q => !roomExpired q.2 now)) k = none :=
          AList.get_none_of_sublist (List.filter_sublist l) hnone
        rw [hfn, AList.get_cons]
        constructor
        · intro h; cases h
        · rintro ⟨h1, h2⟩
          rw [if_pos (by simpa using hpk)] at h1
          cases h1
          rw [hpe] at h2
          cases h2
      · have hpe' : roomExpired p.2 now = false := by simpa using hpe
        rw [if_pos (by simp [hpe'])]
        rw [AList.get_cons, AList.get_cons]
        rw [if_pos (by simpa using hpk), if_pos (by simpa using hpk)]
        constructor
        · intro h; cases h; exact ⟨rfl, hpe'⟩
        · rintro ⟨h1, h2⟩; cases h1; rfl
    · have hskip : (p.1 == k) = false := by simpa using hpk
      by_cases hpe : roomExpired p.2 now = true
      · rw [if_neg (by simp [hpe])]
        rw [ih hnd.2]
        rw [AList.get_cons, hskip]
        simp
      · have hpe' : roomExpired p.2 now = false := by simpa using hpe
        rw [if_pos (by simp [hpe'])]
        rw [AList.get_cons, AList.get_cons, hskip]
        simp only [Bool.false_eq_true, if_false]
        exact ih hnd.2

theorem cleanupSweep_rooms (s : ServerState) (now : Nat)
    (hnd : (s.rooms.map Prod.fst).Nodup) :
    (cleanupSweep s now).rooms
      = s.rooms.filter (fun q => !roomExpired q.2 now) := by
  unfold cleanupSweep
  rw [sweep_rooms_foldl, foldl_del_eq_filter]
  apply List.filter_congr
  intro q hq
  rw [any_key_eq s.rooms now hnd q hq]

theorem foldl_del_preserves_none (ps : List (String × Participant))
    (pr : List (String × String)) (pid : String)
    (h : AList.get pr pid = none) :
    AList.get (ps.foldl (fun pr q => AList.del pr q.1) pr) pid = none := by
  induction ps generalizing pr with
  | nil => exact h
  | cons q ps ih =>
    exact ih _ (AList.get_none_of_sublist (List.filter_sublist _) h)

theorem foldl_del_mem_none (ps : List (String × Participant))
    (pr : List (String × String)) (pid : String)
    (h : pid ∈ ps.map Prod.fst) :
    AList.get (ps.foldl (fun pr q => AList.del pr q.1) pr) pid = none := by
  induction ps generalizing pr with
  | nil => cases h
  | cons q ps ih =>
    rcases (by simpa using h : pid = q.1 ∨ pid ∈ ps.map Prod.fst) with h1 | h1
    · exact foldl_del_preserves_none ps _ pid (h1 ▸ AList.get_del_self pr q.1)
    · exact ih _ h1

theorem sweepFold_preserves_pr_none (l : List (String × Room))
    (st : ServerState) (now : Nat) (pid : String)
    (h : AList.get st.participantRooms pid = none) :
    AList.get ((l.foldl (sweepStep now) st)).participantRooms pid = none := by
  induction l generalizing st with
  | nil => exact h
  | cons p l ih =>
    rw [List.foldl_cons]
    apply ih
    unfold sweepStep
    by_cases hp : roomExpired p.2 now = true
    · rw [if_pos hp]
      exact foldl_del_preserves_none _ _ _ h
    · rw [if_neg hp]
      exact h

theorem sweepFold_preserves_rooms_none (l : List (String × Room))
    (st : ServerState) (now : Nat) (rid : String)
    (h : AList.get st.rooms rid = none) :
    AList.get ((l.foldl (sweepStep now) st)).rooms rid = none := by
  induction l generalizing st with
  | nil => exact h
  | cons p l ih =>
    rw [List.foldl_cons]
    apply ih
    unfold sweepStep
    by_cases hp : roomExpired p.2 now = true
    · rw [if_pos hp]
      exact AList.get_none_of_sublist (List.filter_sublist _) h
    · rw [if_neg hp]
      exact h

theorem sweepFold_purges_index (l : List (String × Room)) (st : ServerState)
    (now : Nat) :
    ∀ entry ∈ l, roomExpired entry.2 now = true →
      ∀ pid ∈ entry.2.participants.map Prod.fst,
        AList.get ((l.foldl (sweepStep now) st)).participantRooms pid = none := by
  induction l generalizing st with
  | nil => intro e he; cases he
  | cons p l ih =>
    intro e he hexp pid hpid
    rw [List.foldl_cons]
    rcases List.mem_cons.mp he with rfl | he'
    · apply sweepFold_preserves_pr_none
      unfold sweepStep
      rw [if_pos hexp]
      exact foldl_del_mem_none _ _ _ hpid
    · exact ih _ e he' hexp pid hpid

theorem sweepFold_deletes_room (l : List (String × Room)) (st : ServerState)
    (now : Nat) :
    ∀ entry ∈ l, roomExpired entry.2 now = true →
      AList.get ((l.foldl (sweepStep now) st)).rooms entry.1 = none := by
  induction l generalizing st with
  | nil => intro e he; cases he
  | cons p l ih =>
    intro e he hexp
    rw [List.foldl_cons]
    rcases List.mem_cons.mp he with rfl | he'
    · apply sweepFold_preserves_rooms_none
      unfold sweepStep
      rw [if_pos hexp]
      exact AList.get_del_self _ _
    · exact ih _ e he' hexp

/-- C9: one sweep at time `now` keeps a room exactly when the room is
active and its age is within the 24-hour window (`ROOM_TIMEOUT`), keeping
it unchanged, and for each removed room every one of its participants
loses their `participantRooms` index entry.  The hypothesis says the
stored room codes are distinct, which claim C5's uniqueness invariant is
supposed to provide. -/
theorem cleanupSweep_spec (s : ServerState) (now : Nat)
    (hnd : (s.rooms.map Prod.fst).Nodup) :
    (∀ rid room, AList.get (cleanupSweep s now).rooms rid = some room ↔
        (AList.get s.rooms rid = some room ∧ room.isActive = true
          ∧ now - room.createdAt ≤ ROOM_TIMEOUT))
    ∧ (∀ rid room, (rid, room) ∈ s.rooms → roomExpired room now = true →
        (AList.get (cleanupSweep s now).rooms rid = none
          ∧ ∀ pid ∈ room.participants.map Prod.fst,
              AList.get (cleanupSweep s now).participantRooms pid = none)) := by
  constructor
  · intro rid room
    rw [show (cleanupSweep s now).rooms
          = s.rooms.filter (fun q => !roomExpired q.2 now)
        from cleanupSweep_rooms s now hnd]
    rw [get_filter_not_expired s.rooms now hnd rid room]
    have hexp : roomExpired room now = false ↔
        (room.isActive = true ∧ now - room.createdAt ≤ ROOM_TIMEOUT) := by
      unfold roomExpired
      constructor
      · intro h
        rcases Bool.or_eq_false_iff.mp h with ⟨h1, h2⟩
        exact ⟨by simpa using h1, by simpa using h2⟩
      · rintro ⟨h1, h2⟩
        rw [h1]
        simpa using h2
    rw [and_congr_right_iff]
    intro _
    exact hexp
  · intro rid room hmem hexp
    exact ⟨sweepFold_deletes_room s.rooms s now (rid, room) hmem hexp,
      fun pid hpid =>
        sweepFold_purges_index s.rooms s now (rid, room) hmem hexp pid hpid⟩

/-- Witness for C9: sweeping a state holding the inactive room `R9` at
time 5 deletes `R9`, removes `bob` from the index, and a fresh active
room survives unchanged. -/
theorem cleanupSweep_spec_witness :
    (AList.get (cleanupSweep inactiveSampleState 5).rooms "R9" = none
      ∧ AList.get (cleanupSweep inactiveSampleState 5).participantRooms "bob"
          = none)
    ∧ AList.get (cleanupSweep sampleState 5).rooms "R1" = some sampleRoom := by
  constructor
  · have h := (cleanupSweep_spec inactiveSampleState 5 (by decide)).2
      "R9" inactiveSampleRoom (by simp [inactiveSampleState]) (by decide)
    exact ⟨h.1, h.2 "bob" (by decide)⟩
  · exact ((cleanupSweep_spec sampleState 5 (by decide)).1 "R1" sampleRoom).mpr
      ⟨rfl, rfl, by decide⟩

/-! ## The `isActive` lifecycle: claim C4 -/

theorem AList.mem_of_get_eq_some {α : Type} {l : List (String × α)} {k : String}
    {v : α} (h : AList.get l k = some v) : (k, v) ∈ l := by
  unfold AList.get at h
  cases hf : l.find? (fun p => p.1 == k) with
  | none => rw [hf] at h; cases h
  | some p =>
    rw [hf] at h
    simp only [Option.map_some'] at h
    obtain ⟨a, b⟩ := p
    have hkey := List.find?_some hf
    simp only [beq_iff_eq] at hkey
    subst hkey
    cases h
    exact List.mem_of_find?_eq_some hf

theorem joinRoom_preserves_inactive (s : ServerState) (rid n : String)
    (av : Option String) (pid : String) (now : Nat) (roomId : String)
    (room : Room) (hroom : AList.get s.rooms roomId = some room)
    (hin : room.isActive = false) :
    ∃ room', AList.get (joinRoom s rid n av pid now).1.rooms roomId = some room'
      ∧ room'.isActive = false := by
  unfold joinRoom
  by_cases hn : (n == "") = true
  · rw [if_pos hn]
    exact ⟨room, hroom, hin⟩
  · rw [if_neg hn]
    cases hg : AList.get s.rooms rid with
    | none => exact ⟨room, hroom, hin⟩
    | some room₀ =>
      simp only []
      by_cases ha : (!room₀.isActive) = true
      · rw [if_pos ha]
        exact ⟨room, hroom, hin⟩
      · rw [if_neg ha]
        by_cases hr : rid = roomId
        · subst hr
          rw [hg] at hroom
          cases hroom
          rw [hin] at ha
          simp at ha
        · refine ⟨room, ?_, hin⟩
          simpa [AList.get_set_ne _ _ _ _ hr] using hroom

theorem addSong_preserves_inactive (s : ServerState) (rid pid : String)
    (song : SongFields) (sid : String) (now : Nat) (roomId : String)
    (room : Room) (hroom : AList.get s.rooms roomId = some room)
    (hin : room.isActive = false) :
    ∃ room', AList.get (addSong s rid pid song sid now).1.rooms roomId = some room'
      ∧ room'.isActive = false := by
  unfold addSong
  cases hg : AList.get s.rooms rid with
  | none => exact ⟨room, hroom, hin⟩
  | some room₀ =>
    simp only []
    by_cases hm : (!AList.hasKey room₀.participants pid) = true
    · rw [if_pos hm]
      exact ⟨room, hroom, hin⟩
    · rw [if_neg hm]
      by_cases hr : rid = roomId
      · subst hr
        rw [hg] at hroom
        cases hroom
        exact ⟨_, AList.get_set_self _ _ _, hin⟩
      · refine ⟨room, ?_, hin⟩
        simpa [AList.get_set_ne _ _ _ _ hr] using hroom

theorem castVote_preserves_inactive (s : ServerState) (rid pid sid v : String)
    (now : Nat) (roomId : String) (room : Room)
    (hroom : AList.get s.rooms roomId = some room)
    (hin : room.isActive = false) :
    ∃ room', AList.get (castVote s rid pid sid v now).1.rooms roomId = some room'
      ∧ room'.isActive = false := by
  unfold castVote
  by_cases hv : (!(v == "up" || v == "down")) = true
  · rw [if_pos hv]
    exact ⟨room, hroom, hin⟩
  · rw [if_neg hv]
    cases hg : AList.get s.rooms rid with
    | none => exact ⟨room, hroom, hin⟩
    | some room₀ =>
      simp only []
      by_cases hm : (!AList.hasKey room₀.participants pid) = true
      · rw [if_pos hm]
        exact ⟨room, hroom, hin⟩
      · rw [if_neg hm]
        by_cases hr : rid = roomId
        · subst hr
          rw [hg] at hroom
          cases hroom
          exact ⟨_, AList.get_set_self _ _ _, hin⟩
        · refine ⟨room, ?_, hin⟩
          simpa [AList.get_set_ne _ _ _ _ hr] using hroom

theorem leaveRoom_preserves_inactive (s : ServerState) (rid pid : String)
    (roomId : String) (room : Room)
    (hroom : AList.get s.rooms roomId = some room)
    (hin : room.isActive = false) :
    ∃ room', AList.get (leaveRoom s rid pid).1.rooms roomId = some room'
      ∧ room'.isActive = false := by
  unfold leaveRoom
  cases hg : AList.get s.rooms rid with
  | none => exact ⟨room, hroom, hin⟩
  | some room₀ =>
    simp only []
    cases hp : AList.get room₀.participants pid with
    | none => exact ⟨room, hroom, hin⟩
    | some part =>
      simp only []
      by_cases hr : rid = roomId
      · subst hr
        rw [hg] at hroom
        cases hroom
        refine ⟨_, AList.get_set_self _ _ _, ?_⟩
        by_cases hc : (AList.size (AList.del room.participants pid) == 0
            || pid == room.createdBy) = true
        · simp [hc]
        · simp [hc, hin]
      · refine ⟨room, ?_, hin⟩
        simpa [AList.get_set_ne _ _ _ _ hr] using hroom

/-- C4: a room is created with `isActive = true`; a successful leave sets
`isActive` to false exactly when the remaining participant set is empty or
the leaver is the creator (an already-inactive room stays inactive); no
operation on an existing room (join, addSong, castVote, leave) ever turns
an inactive room active again; and the sweep deletes inactive rooms rather
than reactivating them.  (A colliding create replaces the whole aggregate,
see claim C5; it is excluded via `Op.isCreate`.) -/
theorem isActive_lifecycle :
    (∀ s name creatorName avatar roomId pid now room',
        AList.get (createRoom s name creatorName avatar roomId pid now).1.rooms
            roomId = some room' →
        (createRoom s name creatorName avatar roomId pid now).2 = .ok roomId →
        room'.isActive = true)
    ∧ (∀ s roomId pid room part,
        AList.get s.rooms roomId = some room →
        AList.get room.participants pid = some part →
        ∃ room', AList.get (leaveRoom s roomId pid).1.rooms roomId = some room'
          ∧ (room.isActive = true →
              (room'.isActive = false ↔
                (AList.size room'.participants = 0 ∨ pid = room.createdBy)))
          ∧ (room.isActive = false → room'.isActive = false))
    ∧ (∀ s op roomId room, Op.isCreate op = false →
        AList.get s.rooms roomId = some room → room.isActive = false →
        AList.get (runOp s op).1.rooms roomId = none
        ∨ ∃ room', AList.get (runOp s op).1.rooms roomId = some room'
            ∧ room'.isActive = false)
    ∧ (∀ s now roomId room, AList.get s.rooms roomId = some room →
        room.isActive = false →
        AList.get (cleanupSweep s now).rooms roomId = none) := by
  refine ⟨?_, ?_, ?_, ?_⟩
  · intro s name creatorName avatar roomId pid now room' hget hok
    unfold createRoom at hget hok
    by_cases hval : (name == "" || creatorName == "") = true
    · rw [if_pos hval] at hok
      cases hok
    · rw [if_neg hval] at hget
      simp only [AList.get_set_self] at hget
      cases hget
      rfl
  · intro s roomId pid room part hroom hpart
    rw [leaveRoom_eq s roomId pid room part hroom hpart]
    refine ⟨_, AList.get_set_self _ _ _, ?_, ?_⟩
    · intro hact
      by_cases hc : (AList.size (AList.del room.participants pid) == 0
          || pid == room.createdBy) = true
      · rw [if_pos hc]
        simp only [Bool.or_eq_true, beq_iff_eq] at hc
        simpa using hc
      · rw [if_neg hc]
        rw [hact]
        simp only [Bool.or_eq_true, beq_iff_eq, not_or] at hc
        push_neg at hc
        simp [hc.1, hc.2]
    · intro hin
      by_cases hc : (AList.size (AList.del room.participants pid) == 0
          || pid == room.createdBy) = true
      · simp [hc]
      · simp [hc, hin]
  · intro s op roomId room hic hroom hin
    cases op with
    | create n cn ca rid pid now => simp [Op.isCreate] at hic
    | join rid n av pid now =>
      exact Or.inr (joinRoom_preserves_inactive s rid n av pid now roomId room
        hroom hin)
    | addSong rid pid song sid now =>
      exact Or.inr (addSong_preserves_inactive s rid pid song sid now roomId room
        hroom hin)
    | castVote rid pid sid v now =>
      exact Or.inr (castVote_preserves_inactive s rid pid sid v now roomId room
        hroom hin)
    | leave rid pid =>
      exact Or.inr (leaveRoom_preserves_inactive s rid pid roomId room hroom hin)
  · intro s now roomId room hroom hin
    have hexp : roomExpired room now = true := by
      unfold roomExpired
      rw [hin]
      simp
    exact sweepFold_deletes_room s.rooms s now (roomId, room)
      (AList.mem_of_get_eq_some hroom) hexp

/-- Witness for C4 at concrete states: creation starts active; the
creator's leave deactivates `sampleRoomVotes`; addSong on the inactive
`R9` leaves it inactive; the sweep deletes `R9`. -/
theorem isActive_lifecycle_witness :
    (∃ room',
        AList.get (leaveRoom sampleStateVotes "R2" "alice").1.rooms "R2"
            = some room'
        ∧ (sampleRoomVotes.isActive = true →
            (room'.isActive = false ↔
              (AList.size room'.participants = 0
                ∨ "alice" = sampleRoomVotes.createdBy)))
        ∧ (sampleRoomVotes.isActive = false → room'.isActive = false))
    ∧ (AList.get (runOp inactiveSampleState
          (Op.addSong "R9" "bob" ⟨"A", "X", none, 1, none⟩ "s1" 2)).1.rooms "R9"
            = none
        ∨ ∃ room',
            AList.get (runOp inactiveSampleState
              (Op.addSong "R9" "bob" ⟨"A", "X", none, 1, none⟩ "s1" 2)).1.rooms
                "R9" = some room'
            ∧ room'.isActive = false)
    ∧ AList.get (cleanupSweep inactiveSampleState 3).rooms "R9" = none
    ∧ (∀ room',
        AList.get (createRoom sampleState "Disco" "Carl" none "R7" "carl"
            3).1.rooms "R7" = some room' →
        (createRoom sampleState "Disco" "Carl" none "R7" "carl" 3).2
            = .ok "R7" →
        room'.isActive = true) :=
  ⟨isActive_lifecycle.2.1 sampleStateVotes "R2" "alice" sampleRoomVotes aliceP
      (by rfl) (by rfl),
   isActive_lifecycle.2.2.1 inactiveSampleState
      (Op.addSong "R9" "bob" ⟨"A", "X", none, 1, none⟩ "s1" 2) "R9"
      inactiveSampleRoom (by rfl) (by rfl) (by rfl),
   isActive_lifecycle.2.2.2 inactiveSampleState 3 "R9" inactiveSampleRoom
      (by rfl) (by rfl),
   fun room' => isActive_lifecycle.1 sampleState "Disco" "Carl" none "R7" "carl"
      3 room'⟩

/-! ## Failing mutations do not change state: claim C10 -/

/-- C10: whenever an operation (create, join, addSong, castVote, leave)
returns an error — validation, not-found, forbidden or inactive-room —
the two stores (`rooms` and `participantRooms`) are exactly as before the
call: every error response is an early return taken before any mutation. -/
theorem runOp_error_preserves_state (s : ServerState) (op : Op) (e : ApiError)
    (h : (runOp s op).2 = some e) : (runOp s op).1 = s := by
  cases op with
  | create n cn ca rid pid now =>
    simp only [runOp] at h ⊢
    unfold createRoom at h ⊢
    by_cases hval : (n == "" || cn == "") = true
    · rw [if_pos hval]
    · rw [if_neg hval] at h
      simp [errOf] at h
  | join rid n av pid now =>
    simp only [runOp] at h ⊢
    unfold joinRoom at h ⊢
    by_cases hn : (n == "") = true
    · rw [if_pos hn]
    · rw [if_neg hn] at h ⊢
      cases hg : AList.get s.rooms rid with
      | none => simp only [hg]
      | some room =>
        simp only [hg] at h ⊢
        by_cases ha : (!room.isActive) = true
        · rw [if_pos ha]
        · rw [if_neg ha] at h
          simp [errOf] at h
  | addSong rid pid song sid now =>
    simp only [runOp] at h ⊢
    unfold addSong at h ⊢
    cases hg : AList.get s.rooms rid with
    | none => simp only [hg]
    | some room =>
      simp only [hg] at h ⊢
      by_cases hm : (!AList.hasKey room.participants pid) = true
      · rw [if_pos hm]
      · rw [if_neg hm] at h
        simp [errOf] at h
  | castVote rid pid sid v now =>
    simp only [runOp] at h ⊢
    unfold castVote at h ⊢
    by_cases hv : (!(v == "up" || v == "down")) = true
    · rw [if_pos hv]
    · rw [if_neg hv] at h ⊢
      cases hg : AList.get s.rooms rid with
      | none => simp only [hg]
      | some room =>
        simp only [hg] at h ⊢
        by_cases hm : (!AList.hasKey room.participants pid) = true
        · rw [if_pos hm]
        · rw [if_neg hm] at h
          simp [errOf] at h
  | leave rid pid =>
    simp only [runOp] at h ⊢
    unfold leaveRoom at h ⊢
    cases hg : AList.get s.rooms rid with
    | none => simp only [hg]
    | some room =>
      simp only [hg] at h ⊢
      cases hp : AList.get room.participants pid with
      | none => simp only [hp]
      | some part =>
        simp only [hp] at h
        simp [errOf] at h

/-- Witness for C10: a join for an unknown room code errors with
not-found and leaves the state unchanged. -/
theorem runOp_error_preserves_state_witness :
    (runOp sampleState (Op.join "NOPE" "Carl" none "carl" 9)).2
        = some ApiError.notFound
    ∧ (runOp sampleState (Op.join "NOPE" "Carl" none "carl" 9)).1
        = sampleState :=
  ⟨by rfl,
   runOp_error_preserves_state sampleState (Op.join "NOPE" "Carl" none "carl" 9)
     ApiError.notFound (by rfl)⟩

/-! ## Room-code collisions: claim C5 -/

/-- C5 refutation on the code: the create handler stores the freshly
generated code with no collision check against the Room Store.  Here the
store already holds Alice's room under code `R1`; a create whose generated
code is also `R1` succeeds and afterwards the store holds only Carl's new
room under that code — the existing room was silently overwritten. -/
theorem createRoom_collision_overwrites :
    AList.get sampleState.rooms "R1" = some sampleRoom
    ∧ (createRoom sampleState "Disco" "Carl" none "R1" "carl" 5).2 = .ok "R1"
    ∧ ((AList.get (createRoom sampleState "Disco" "Carl" none "R1" "carl"
          5).1.rooms "R1").map Room.createdBy = some "carl")
    ∧ (createRoom sampleState "Disco" "Carl" none "R1" "carl" 5).1.rooms.length
        = 1 :=
  ⟨rfl, rfl, rfl, rfl⟩

/-! ## Votes for songs never added: claim C6 -/

/-- C6 refutation on the code: the vote handler takes the song id from the
request body and never checks it against the queue.  In `sampleState` the
queue of room `R1` is empty — no addSong ever ran — yet member `alice`
votes on id `ghost` successfully and the votes mapping afterwards has the
key `ghost`. -/
theorem castVote_ghost_song_entry :
    (castVote sampleState "R1" "alice" "ghost" "up" 7).2 = .ok ()
    ∧ ((AList.get (castVote sampleState "R1" "alice" "ghost" "up" 7).1.rooms
          "R1").map Room.queue = some [])
    ∧ ((AList.get (castVote sampleState "R1" "alice" "ghost" "up" 7).1.rooms
          "R1").map (fun r => r.votes.map Prod.fst) = some ["ghost"]) :=
  ⟨rfl, rfl, rfl⟩

/-! ## Inactive-room checks: claim C7 -/

/-- C7 counterexample: in `leftCreatorState` room `R1` is inactive (its
creator left), yet member Bob's addSong succeeds and mutates the queue
instead of failing with an inactive-room error. -/
theorem addSong_on_inactive_room_succeeds :
    ((AList.get leftCreatorState.rooms "R1").map Room.isActive = some false)
    ∧ (addSong leftCreatorState "R1" "bob" ⟨"A", "X", none, 100, none⟩
        "s1" 2).2
        = .ok { id := "s1", title := "A", artist := "X", albumArt := none,
                duration := 100, spotifyId := none, addedBy := "bob",
                addedAt := 2 }
    ∧ ((AList.get (addSong leftCreatorState "R1" "bob"
          ⟨"A", "X", none, 100, none⟩ "s1" 2).1.rooms "R1").map
            (fun r => r.queue.map Song.id) = some ["s1"]) :=
  ⟨rfl, rfl, rfl⟩

/-- C7 (amended): only the join handler checks `isActive`.  Joining an
inactive room fails with the inactive-room error and leaves the state
unchanged, while addSong and castVote never produce that error — for
members they proceed regardless of the flag. -/
theorem inactive_room_check_only_join :
    (∀ s rid n av pid now room, AList.get s.rooms rid = some room →
        room.isActive = false → n ≠ "" →
        joinRoom s rid n av pid now = (s, .error .inactiveRoom))
    ∧ (∀ s rid pid song sid now,
        (addSong s rid pid song sid now).2 ≠ .error .inactiveRoom)
    ∧ (∀ s rid pid sid v now,
        (castVote s rid pid sid v now).2 ≠ .error .inactiveRoom) := by
  refine ⟨?_, ?_, ?_⟩
  · intro s rid n av pid now room hroom hin hn
    unfold joinRoom
    rw [if_neg (by simpa using hn), hroom]
    simp [hin]
  · intro s rid pid song sid now
    unfold addSong
    cases hg : AList.get s.rooms rid with
    | none => simp
    | some room =>
      simp only []
      by_cases hm : (!AList.hasKey room.participants pid) = true
      · rw [if_pos hm]
        simp
      · rw [if_neg hm]
        simp
  · intro s rid pid sid v now
    unfold castVote
    by_cases hv : (!(v == "up" || v == "down")) = true
    · rw [if_pos hv]
      simp
    · rw [if_neg hv]
      cases hg : AList.get s.rooms rid with
      | none => simp
      | some room =>
        simp only []
        by_cases hm : (!AList.hasKey room.participants pid) = true
        · rw [if_pos hm]
          simp
        · rw [if_neg hm]
          simp

/-- Witness for the amended C7 at `inactiveSampleState`. -/
theorem inactive_room_check_only_join_witness :
    joinRoom inactiveSampleState "R9" "Carl" none "p9" 9
        = (inactiveSampleState, .error .inactiveRoom)
    ∧ (addSong inactiveSampleState "R9" "bob" ⟨"A", "X", none, 1, none⟩
        "s1" 2).2 ≠ .error .inactiveRoom
    ∧ (castVote inactiveSampleState "R9" "bob" "s1" "up" 2).2
        ≠ .error .inactiveRoom :=
  ⟨inactive_room_check_only_join.1 inactiveSampleState "R9" "Carl" none "p9" 9
      inactiveSampleRoom (by rfl) (by rfl) (by decide),
   inactive_room_check_only_join.2.1 inactiveSampleState "R9" "bob"
      ⟨"A", "X", none, 1, none⟩ "s1" 2,
   inactive_room_check_only_join.2.2 inactiveSampleState "R9" "bob" "s1" "up" 2⟩

end Jukebox
